import Mathlib

/-!
# Verification of the wgslsmith generator core (scope.rs / structs.rs)

Shallow embedding of `src/wgslsmith/src/generator/scope.rs` and
`src/wgslsmith/src/generator/structs.rs`.

Modelling conventions:
* A random-number generator (`rand::StdRng`) is modelled as a stream of raw
  draws (`Rng := List Nat`); exhausting the stream yields `0`s, matching the
  fact that `StdRng` never runs out.  `rng.gen_range(lo..hi)` consumes one
  draw `r` and returns `lo + r % (hi - lo)`; Rust panics on an empty range,
  modelled by `Option` (`none` = panic).  `choose` on a sequence picks the
  element at index `r % length` (behavioural model of uniform selection) and
  yields `none` on an empty sequence, as the rand library does.
* Rust `u32` counters are modelled as `Nat` with the release-mode wrapping
  increment made explicit: `self.count += 1` becomes
  `(count + 1) % 2 ^ 32`, so the wrap at `u32::MAX` is part of the model.
* Types from the `ast` crate (not included under `src/`) are modelled from
  the spec's data-model section: a tagged variant over scalar kinds, vectors
  of arity 2-4, and named aggregate types, with structural equality.
* The statement/expression synthesizers (`ScopedStmtGenerator`,
  `ExprGenerator`) and the `TypeRegistry` are not included under `src/`;
  they are modelled from the spec (see the `Modelled from the spec:` doc
  comments below).
-/

/-- Model of `ast::types::ScalarType`.  Modelled from the spec: "scalar kind
(boolean/signed-integer/unsigned-integer/...)"; the trailing ellipsis is
represented by a float kind `f32`, which the generator never produces. -/
inductive ScalarType where
  | i32 : ScalarType
  | u32 : ScalarType
  | bool : ScalarType
  | f32 : ScalarType
deriving DecidableEq

/-- Model of `ast::types::DataType`.  Modelled from the spec: "a tagged
variant over {scalar kind, vector of arity 2-4 over a scalar kind, named
aggregate type}.  Structural equality ... determines type compatibility"
(`DecidableEq` on this inductive is structural equality). -/
inductive DataType where
  | Scalar : ScalarType → DataType
  | Vector : Nat → ScalarType → DataType
  | Struct : String → DataType
deriving DecidableEq

/-- Model of `ast::Expr`.  Modelled from the spec: the expression forms the
Expression Synthesizer chooses among are "literal construction, reference to
an existing scope binding of the exact target type, vector/aggregate
construction from well-typed sub-expressions, or a call to a registry
signature returning the exact target type".  Each form records the type it
was synthesized at; a call records the callee's name, the types of its
argument expressions (synthesized as always-available literal
constructions), and its return type. -/
inductive Expr where
  | lit : DataType → Expr
  | varRef : String → DataType → Expr
  | call : String → List DataType → DataType → Expr
deriving DecidableEq

/-- The type of an expression (each synthesized form records the target type
it was produced at; the spec's totality contract makes every form
well-typed at its target). -/
def exprType : Expr → DataType
  | .lit t => t
  | .varRef _ t => t
  | .call _ _ t => t

/-- Model of `ast::Statement`.  Modelled from the spec: the Statement
Synthesizer produces "immutable/mutable declarations, assignments, bare
expression statements, conditionals/returns".  `ret` mirrors the source's
`Statement::Return(Option<Expr>)`, which is the only constructor
`FnRegistry::gen` inspects. -/
inductive Statement where
  | letDecl : String → DataType → Expr → Statement
  | varDecl : String → DataType → Expr → Statement
  | assign : String → Expr → Statement
  | exprStmt : Expr → Statement
  | ret : Option Expr → Statement
deriving DecidableEq

/-- Model of `ast::FnInput` (the always-empty attribute list is omitted). -/
structure FnInput where
  name : String
  data_type : DataType
deriving DecidableEq

/-- Model of `ast::FnDecl`; `output` models `Option<FnOutput>` where
`FnOutput` carries only a data type and an always-empty attribute list. -/
structure FnDecl where
  name : String
  inputs : List FnInput
  output : Option DataType
  body : List Statement
deriving DecidableEq

/-- Model of `scope.rs`: `pub type FnSig = (String, Vec<DataType>, Option<DataType>)`
with named fields for the three components. -/
structure FnSig where
  name : String
  params : List DataType
  ret : Option DataType
deriving DecidableEq

/-- Model of `ast::StructMember`. -/
structure StructMember where
  name : String
  data_type : DataType
deriving DecidableEq

/-- Model of `ast::StructDecl`. -/
structure StructDecl where
  name : String
  members : List StructMember
deriving DecidableEq

/-- Model of the generator configuration `crate::Options`: the fields the
verified code reads (`enabled_fns` as the membership list backing the
`HashSet`, and the struct-member bounds). -/
structure Options where
  enabled_fns : List String
  min_struct_members : Nat
  max_struct_members : Nat

/-- A pseudo-random source, modelled as the stream of raw draws it will
produce.  `rand::StdRng` is an infinite deterministic stream; a finite list
models it with draws of `0` past the end. -/
def Rng : Type := List Nat

instance : DecidableEq Rng := inferInstanceAs (DecidableEq (List Nat))

/-- Take one raw draw from the stream. -/
def draw : Rng → Nat × Rng
  | [] => (0, [])
  | r :: rest => (r, rest)

/-- Model of `rng.gen_range(lo..hi)` (half-open).  Rust panics when the
range is empty (`lo ≥ hi`), modelled as `none`; otherwise the draw is
reduced uniformly into the range. -/
def genRangeX (lo hi : Nat) (rng : Rng) : Option (Nat × Rng) :=
  if lo < hi then
    let (r, rng') := draw rng
    some (lo + r % (hi - lo), rng')
  else none

/-- Model of `rng.gen_range(lo..=hi)` (inclusive).  Rust panics when the
range is empty (`lo > hi`), modelled as `none`. -/
def genRangeI (lo hi : Nat) (rng : Rng) : Option (Nat × Rng) :=
  if lo ≤ hi then
    let (r, rng') := draw rng
    some (lo + r % (hi - lo + 1), rng')
  else none

/-- Model of the rand library's `choose` (both `IteratorRandom::choose` and
`SliceRandom::choose`): uniform selection from a finite sequence, `none` on
an empty one.  The draw indexes the sequence modulo its length. -/
def chooseList {α : Type} : List α → Rng → Option (α × Rng)
  | [], _ => none
  | a :: l, rng =>
    let (r, rng') := draw rng
    some ((a :: l).getD (r % (a :: l).length) a, rng')

theorem chooseList_mem {α : Type} {l : List α} {rng rng' : Rng} {a : α}
    (h : chooseList l rng = some (a, rng')) : a ∈ l := by
  cases l with
  | nil => simp [chooseList] at h
  | cons b t =>
    simp only [chooseList] at h
    obtain ⟨h1, _⟩ := Prod.mk.injEq .. ▸ (Option.some.injEq .. ▸ h)
    have hlt : (draw rng).1 % (b :: t).length < (b :: t).length :=
      Nat.mod_lt _ (by simp)
    rw [List.getD_eq_getElem _ _ hlt] at h1
    exact h1 ▸ List.getElem_mem hlt

theorem chooseList_isSome_iff {α : Type} (l : List α) (rng : Rng) :
    (chooseList l rng).isSome = true ↔ l ≠ [] := by
  cases l <;> simp [chooseList]

theorem chooseList_at {α : Type} (a : α) (l : List α) (r : Nat) (rest : Rng) :
    chooseList (a :: l) (r :: rest) =
      some ((a :: l).getD (r % (a :: l).length) a, rest) := rfl

/-- Model of `Scope` (scope.rs lines 129-134): persistent vectors become
lists, `u32` becomes `Nat`. -/
structure Scope where
  next_name : Nat
  consts : List (String × DataType)
  vars : List (String × DataType)
deriving DecidableEq

/-- `Scope::empty` (scope.rs 137-143). -/
def Scope.empty : Scope := ⟨0, [], []⟩

/-- `Scope::has_vars` (scope.rs 145-147): `!self.vars.is_empty()`. -/
def Scope.has_vars (s : Scope) : Bool := !s.vars.isEmpty

/-- `Scope::iter_vars` (scope.rs 149-154): consts chained with vars (the
source's reference-taking `map` is the identity on values). -/
def Scope.iter_vars (s : Scope) : List (String × DataType) :=
  s.consts ++ s.vars

/-- `Scope::choose_var` (scope.rs 156-158): `choose` over the mutable
sequence; the source's `.unwrap()` panic on an empty scope is `none`. -/
def Scope.choose_var (s : Scope) (rng : Rng) :
    Option ((String × DataType) × Rng) :=
  chooseList s.vars rng

/-- `Scope::insert_let` (scope.rs 160-162): append to the immutable
sequence. -/
def Scope.insert_let (s : Scope) (name : String) (data_type : DataType) :
    Scope :=
  { s with consts := s.consts ++ [(name, data_type)] }

/-- `Scope::insert_var` (scope.rs 164-166): append to the mutable
sequence. -/
def Scope.insert_var (s : Scope) (name : String) (data_type : DataType) :
    Scope :=
  { s with vars := s.vars ++ [(name, data_type)] }

/-- Little-endian decimal digits of `n`, with explicit fuel (structural
recursion, so that it computes by kernel reduction; `fuel ≥ n` suffices). -/
def decDigitsF : Nat → Nat → List Nat
  | _, 0 => []
  | 0, _ + 1 => []
  | fuel + 1, n + 1 => ((n + 1) % 10) :: decDigitsF fuel ((n + 1) / 10)

/-- Decimal rendering of a natural number (the embedding of Rust's
`u32` `Display`, as used by `format!`): most-significant-first decimal
digits, with `"0"` for zero. -/
def natDecimal (n : Nat) : String :=
  if n = 0 then "0" else String.mk (((decDigitsF n n).map Nat.digitChar).reverse)

/-- `Scope::next_var` (scope.rs 168-172): returns `format!("var_{}", next)`
for the current counter and advances it (`u32` wrapping increment). -/
def Scope.next_var (s : Scope) : String × Scope :=
  ("var_" ++ natDecimal s.next_name,
    { s with next_name := (s.next_name + 1) % 2 ^ 32 })

/-- `vectors_of` (scope.rs 175-177): `(2..=4).map(|n| Vector(n, ty))`. -/
def vectors_of (ty : ScalarType) : List DataType :=
  ([2, 3, 4] : List Nat).map fun n => DataType.Vector n ty

/-- `scalar_and_vectors_of` (scope.rs 179-181). -/
def scalar_and_vectors_of (ty : ScalarType) : List DataType :=
  DataType.Scalar ty :: vectors_of ty

/-- A conditionally-present block of signatures: the embedding of the
source's `if enabled.contains(ident) { fns.push(...) }` pattern. -/
def optSigs (c : Bool) (sigs : List FnSig) : List FnSig :=
  if c then sigs else []

theorem mem_optSigs {c : Bool} {sigs : List FnSig} {x : FnSig} :
    x ∈ optSigs c sigs ↔ c = true ∧ x ∈ sigs := by
  cases c <;> simp [optSigs]

/-- `gen_builtin_fns` (scope.rs 183-302).  The source's `HashSet` of enabled
names is observed only through `contains`, embedded as list membership on
`options.enabled_fns`. -/
def gen_builtin_fns (options : Options) : List FnSig :=
  ((vectors_of .bool).flatMap fun ty =>
    [⟨"all", [ty], some (.Scalar .bool)⟩,
     ⟨"any", [ty], some (.Scalar .bool)⟩])
  ++ (([ScalarType.bool, ScalarType.i32, ScalarType.u32]).flatMap fun s_ty =>
    ((scalar_and_vectors_of s_ty).map fun ty =>
      (⟨"select", [ty, ty, .Scalar .bool], some ty⟩ : FnSig))
    ++ (([2, 3, 4] : List Nat).map fun n =>
      (⟨"select", [.Vector n s_ty, .Vector n s_ty, .Vector n .bool],
        some (.Vector n s_ty)⟩ : FnSig)))
  ++ (([ScalarType.i32, ScalarType.u32]).flatMap fun s_ty =>
    ((scalar_and_vectors_of s_ty).flatMap fun ty =>
      [⟨"clamp", [ty, ty, ty], some ty⟩,
       ⟨"abs", [ty], some ty⟩]
      ++ ((["countLeadingZeros", "countOneBits", "countTrailingZeros",
            "firstBitHigh", "firstBitLow", "reverseBits"]).flatMap fun ident =>
        optSigs (options.enabled_fns.contains ident) [⟨ident, [ty], some ty⟩])
      ++ optSigs (options.enabled_fns.contains "extractBits")
        [⟨"extractBits", [ty, .Scalar .u32, .Scalar .u32], some ty⟩]
      ++ optSigs (options.enabled_fns.contains "insertBits")
        [⟨"insertBits", [ty, ty, .Scalar .u32, .Scalar .u32], some ty⟩]
      ++ [⟨"max", [ty, ty], some ty⟩,
          ⟨"min", [ty, ty], some ty⟩])
    ++ optSigs (options.enabled_fns.contains "dot")
      ((vectors_of s_ty).map fun ty => ⟨"dot", [ty, ty], some (.Scalar s_ty)⟩))

/-- Model of `FnRegistry` (scope.rs 17-21): signature list, body store for
generated functions, and the name counter.  The source's `Rc` sharing is
value sharing here. -/
structure FnRegistry where
  sigs : List FnSig
  impls : List FnDecl
  count : Nat
deriving DecidableEq

/-- `FnRegistry::new` (scope.rs 24-30). -/
def FnRegistry.new (options : Options) : FnRegistry :=
  ⟨gen_builtin_fns options, [], 0⟩

/-- `FnRegistry::len` (scope.rs 32-34). -/
def FnRegistry.len (reg : FnRegistry) : Nat := reg.count

/-- `FnRegistry::contains_type` (scope.rs 40-42):
`matches!(&sig.2, Some(t) if t == ty)` is `sig.ret = some ty`. -/
def FnRegistry.contains_type (reg : FnRegistry) (ty : DataType) : Bool :=
  reg.sigs.any fun sig => decide (sig.ret = some ty)

/-- The signatures whose return type equals `ty` (the iterator that
`FnRegistry::select` samples from). -/
def FnRegistry.matching (reg : FnRegistry) (ty : DataType) : List FnSig :=
  reg.sigs.filter fun sig => decide (sig.ret = some ty)

/-- `FnRegistry::select` (scope.rs 44-49): filter the signatures by return
type and `choose` one. -/
def FnRegistry.select (reg : FnRegistry) (rng : Rng) (return_ty : DataType) :
    Option (FnSig × Rng) :=
  chooseList (reg.matching return_ty) rng

/-- `FnRegistry::insert` (scope.rs 51-65): compute the signature of a
declaration, push it and the body, return the signature. -/
def FnRegistry.insert (reg : FnRegistry) (decl : FnDecl) :
    FnSig × FnRegistry :=
  let sig : FnSig :=
    ⟨decl.name, decl.inputs.map fun param => param.data_type, decl.output⟩
  (sig, { reg with sigs := reg.sigs ++ [sig], impls := reg.impls ++ [decl] })

/-- `FnRegistry::gen_ty` (scope.rs 106-117): a scalar kind chosen from
`[I32, U32, Bool]`, then scalar or vector of arity 2-4.  The source's
`.unwrap()` and `unreachable!()` panics are `none` (provably never hit). -/
def FnRegistry.gen_ty (rng : Rng) : Option (DataType × Rng) := do
  let (scalar_ty, rng) ←
    chooseList [ScalarType.i32, ScalarType.u32, ScalarType.bool] rng
  let (c, rng) ← genRangeX 0 2 rng
  match c with
  | 0 => some (DataType.Scalar scalar_ty, rng)
  | _ => do
    let (n, rng) ← genRangeI 2 4 rng
    some (DataType.Vector n scalar_ty, rng)

/-- The function name formatted by `FnRegistry::next_fn`:
`format!("func_{}", count)`. -/
def mkFnName (n : Nat) : String := "func_" ++ natDecimal n

/-- `FnRegistry::next_fn` (scope.rs 119-123): pre-increment the counter —
the `u32` wrapping increment, wrapping to 0 at `u32::MAX` — and format the
name from the updated counter. -/
def FnRegistry.next_fn (reg : FnRegistry) : String × FnRegistry :=
  (mkFnName ((reg.count + 1) % 2 ^ 32),
    { reg with count := (reg.count + 1) % 2 ^ 32 })

/-- Modelled from the spec: the Type Catalog (`TypeRegistry`, whose
definition is not under `src/`) "enumerates constructible types ... and
samples one under a configurable policy"; its set of registered types is
the list `types`. -/
structure TypeRegistry where
  types : List DataType

/-- Modelled from the spec: `TypeRegistry::select` — "sampling a random
legal type under a weighting policy ... sampling is total — always yields
some type".  Uniform selection by one draw; the default is irrelevant for a
registry holding at least one type. -/
def TypeRegistry.select (t : TypeRegistry) (rng : Rng) : DataType × Rng :=
  let (r, rng') := draw rng
  (t.types.getD (r % t.types.length) (DataType.Scalar .i32), rng')

/-- `FIELD_NAMES` (structs.rs 8): the fixed ten-symbol member-name
alphabet. -/
def FIELD_NAMES : List String :=
  ["a", "b", "c", "d", "e", "f", "g", "h", "i", "j"]

/-- The member loop of `gen_struct_decl` (structs.rs 18-23):
`(0..member_count).map(|i| StructMember { name: FIELD_NAMES[i], data_type:
ty_reg.select(rng) })`, threading the rng.  An out-of-bounds index into
`FIELD_NAMES` is a Rust panic, modelled as `none`. -/
def genMembers (ty_reg : TypeRegistry) :
    Nat → Nat → Rng → Option (List StructMember × Rng)
  | _, 0, rng => some ([], rng)
  | i, k + 1, rng => do
    let name ← FIELD_NAMES.get? i
    let (ty, rng) := ty_reg.select rng
    let (rest, rng) ← genMembers ty_reg (i + 1) k rng
    some (⟨name, ty⟩ :: rest, rng)

/-- `gen_struct_decl` (structs.rs 10-26): sample the member count from the
configured inclusive range, then build the members.  The two possible
panics (empty sampling range; alphabet overflow) are `none`. -/
def gen_struct_decl (rng : Rng) (ty_reg : TypeRegistry) (options : Options)
    (name : String) : Option (StructDecl × Rng) := do
  let (member_count, rng) ←
    genRangeI options.min_struct_members options.max_struct_members rng
  let (members, rng) ← genMembers ty_reg 0 member_count rng
  some (⟨name, members⟩, rng)

/-- Modelled from the spec: `ExprGenerator::gen_expr` (defined in a file not
under `src/`) — "Given a target type, scope, registry ... produces a
well-typed expression by choosing among: literal construction (always
available ...), reference to an existing scope binding of the exact target
type, ... or a call to a registry signature returning the exact target type
(falling back when none exists).  Totality contract: ... literal is the
guaranteed fallback".  Call arguments are synthesized as always-available
literals of the parameter types. -/
def specGenExpr (reg : FnRegistry) (scope : Scope) (target : DataType)
    (rng : Rng) : Expr × Rng :=
  let (c, rng) := draw rng
  match c % 3 with
  | 0 => (Expr.lit target, rng)
  | 1 =>
    match chooseList
        (scope.iter_vars.filter fun b => decide (b.2 = target)) rng with
    | some (b, rng) => (Expr.varRef b.1 b.2, rng)
    | none => (Expr.lit target, rng)
  | _ =>
    match reg.select rng target with
    | some (sig, rng) =>
      (Expr.call sig.name sig.params target, rng)
    | none => (Expr.lit target, rng)

/-- The synthesized expression always has the requested target type (the
spec's well-typedness contract for the Expression Synthesizer). -/
theorem specGenExpr_type (reg : FnRegistry) (scope : Scope)
    (target : DataType) (rng : Rng) :
    exprType (specGenExpr reg scope target rng).1 = target := by
  unfold specGenExpr
  split
  split
  · rfl
  · split
    · next b rng' hc =>
      have hb := chooseList_mem hc
      have hbt : b.2 = target := by
        have := List.mem_filter.mp hb
        exact of_decide_eq_true this.2
      simp [exprType, hbt]
    · rfl
  · split <;> rfl

/-- Modelled from the spec: one step of the Statement Synthesizer
(`ScopedStmtGenerator`, defined in a file not under `src/`) — it produces
"immutable/mutable declarations, assignments, bare expression statements,
conditionals/returns — while mutably extending the given scope", where "a
declaration statement always appends its new binding to the scope before
the next statement is synthesized" and "a return statement appears
mid-block only by explicit random choice"; a synthesized return carries an
expression of the required terminal type. -/
def specGenStmt (reg : FnRegistry) (ret_ty : Option DataType)
    (scope : Scope) (rng : Rng) : Statement × Scope × Rng :=
  let (c, rng) := draw rng
  match c % 4 with
  | 0 =>
    match FnRegistry.gen_ty rng with
    | some (ty, rng) =>
      let (e, rng) := specGenExpr reg scope ty rng
      let (name, scope) := scope.next_var
      (Statement.letDecl name ty e, scope.insert_let name ty, rng)
    | none => (Statement.exprStmt (Expr.lit (.Scalar .i32)), scope, rng)
  | 1 =>
    match FnRegistry.gen_ty rng with
    | some (ty, rng) =>
      let (e, rng) := specGenExpr reg scope ty rng
      let (name, scope) := scope.next_var
      (Statement.varDecl name ty e, scope.insert_var name ty, rng)
    | none => (Statement.exprStmt (Expr.lit (.Scalar .i32)), scope, rng)
  | 2 =>
    match scope.choose_var rng with
    | some ((n, t), rng) =>
      let (e, rng) := specGenExpr reg scope t rng
      (Statement.assign n e, scope, rng)
    | none =>
      let (e, rng) := specGenExpr reg scope (.Scalar .i32) rng
      (Statement.exprStmt e, scope, rng)
  | _ =>
    match ret_ty with
    | some t =>
      let (e, rng) := specGenExpr reg scope t rng
      (Statement.ret (some e), scope, rng)
    | none =>
      let (e, rng) := specGenExpr reg scope (.Scalar .i32) rng
      (Statement.exprStmt e, scope, rng)

/-- Modelled from the spec: `ScopedStmtGenerator::gen_block` — "Produces a
fixed-length ordered block of statements ... while mutably extending the
given scope", then "exposes the scope's final state after block completion
for a caller-side trailing expression synthesis". -/
def specGenBlock (reg : FnRegistry) (ret_ty : Option DataType) :
    Nat → Scope → Rng → List Statement × Scope × Rng
  | 0, scope, rng => ([], scope, rng)
  | n + 1, scope, rng =>
    let (stmt, scope, rng) := specGenStmt reg ret_ty scope rng
    let (rest, scope, rng) := specGenBlock reg ret_ty n scope rng
    (stmt :: rest, scope, rng)

/-- Any return statement synthesized by the modelled Statement Synthesizer
against required terminal type `t` carries an expression of type `t`. -/
theorem specGenStmt_ret_typed (reg : FnRegistry) (t : DataType)
    (scope : Scope) (rng : Rng) :
    ∀ o, (specGenStmt reg (some t) scope rng).1 = Statement.ret o →
      ∃ e, o = some e ∧ exprType e = t := by
  intro o h
  unfold specGenStmt at h
  split at h
  split at h
  · split at h <;> simp at h
  · split at h <;> simp at h
  · split at h <;> simp at h
  · have ho := (Statement.ret.inj h).symm
    exact ⟨_, ho, specGenExpr_type reg scope t _⟩

/-- Every return statement in a block synthesized by the modelled Statement
Synthesizer with required terminal type `t` carries an expression of type
`t`. -/
theorem specGenBlock_ret_typed (reg : FnRegistry) (t : DataType) :
    ∀ (n : Nat) (scope : Scope) (rng : Rng),
      ∀ stmt ∈ (specGenBlock reg (some t) n scope rng).1,
        ∀ o, stmt = Statement.ret o → ∃ e, o = some e ∧ exprType e = t := by
  intro n
  induction n with
  | zero => intro scope rng stmt hmem; simp [specGenBlock] at hmem
  | succ m ih =>
    intro scope rng stmt hmem o hret
    rw [specGenBlock] at hmem
    simp only [List.mem_cons] at hmem
    rcases hmem with h1 | h2
    · exact specGenStmt_ret_typed reg t scope rng o (h1.symm.trans hret)
    · exact ih _ _ stmt h2 o hret

/-- The embedding of `matches!(stmts.last(), Some(Statement::Return(_)))`
(scope.rs 86). -/
def isRetStmt : Option Statement → Bool
  | some (.ret _) => true
  | _ => false

/-- The parameter loop of `FnRegistry::gen` (scope.rs 72-78):
`(0..arg_count).map(|i| FnInput { name: format!("arg_{}", i), data_type:
self.gen_ty(rng) })`, threading the rng through the `gen_ty` calls. -/
def genInputs : Nat → Nat → Rng → Option (List FnInput × Rng)
  | _, 0, rng => some ([], rng)
  | i, k + 1, rng => do
    let (ty, rng) ← FnRegistry.gen_ty rng
    let (rest, rng) ← genInputs (i + 1) k rng
    some (⟨"arg_" ++ natDecimal i, ty⟩ :: rest, rng)

/-- The terminal-return step of `FnRegistry::gen` (scope.rs 86-90): if the
block's last statement is not already a return, synthesize one expression of
`return_ty` against the scope's final state and append it as a terminal
return; otherwise leave the block unchanged. -/
def forceReturn (reg : FnRegistry) (scope : Scope) (return_ty : DataType)
    (stmts : List Statement) (rng : Rng) : List Statement × Rng :=
  if isRetStmt stmts.getLast? then (stmts, rng)
  else
    let (e, rng) := specGenExpr reg scope return_ty rng
    (stmts ++ [Statement.ret (some e)], rng)

/-- `FnRegistry::gen` (scope.rs 68-104): allocate a fresh name, sample the
parameter count from `0..5` and each parameter type, sample the body length
from `5..10`, run the (spec-modelled) statement synthesizer from an empty
scope with `return_ty` as required terminal type, append a terminal return
of a `return_ty`-typed expression when the block's last statement is not
already a return, assemble the declaration and insert it. -/
def FnRegistry.gen (reg : FnRegistry) (rng : Rng) (return_ty : DataType) :
    Option (FnSig × FnRegistry × Rng) := do
  let (name, reg) := reg.next_fn
  let (arg_count, rng) ← genRangeX 0 5 rng
  let (args, rng) ← genInputs 0 arg_count rng
  let (stmt_count, rng) ← genRangeX 5 10 rng
  let (stmts0, scope, rng) :=
    specGenBlock reg (some return_ty) stmt_count Scope.empty rng
  let (stmts, rng) := forceReturn reg scope return_ty stmts0 rng
  let decl : FnDecl := ⟨name, args, some return_ty, stmts⟩
  let (sig, reg) := reg.insert decl
  some (sig, reg, rng)

instance : Inhabited FnSig := ⟨⟨"", [], none⟩⟩

/-- The restricted generable-type distribution of `FnRegistry::gen_ty`:
a scalar, or a vector of arity 2-4, over the boolean, signed-integer or
unsigned-integer scalar kinds — never an aggregate type. -/
def genable : DataType → Prop
  | .Scalar s => s = .i32 ∨ s = .u32 ∨ s = .bool
  | .Vector n s => 2 ≤ n ∧ n ≤ 4 ∧ (s = .i32 ∨ s = .u32 ∨ s = .bool)
  | .Struct _ => False

instance (t : DataType) : Decidable (genable t) := by
  cases t <;> simp only [genable] <;> infer_instance

/-- `FnRegistry::gen_ty` always succeeds, and its result is a generable
type. -/
theorem gen_ty_total (rng : Rng) :
    ∃ ty rng', FnRegistry.gen_ty rng = some (ty, rng') ∧ genable ty := by
  unfold FnRegistry.gen_ty
  rcases hcl : chooseList [ScalarType.i32, ScalarType.u32, ScalarType.bool] rng
    with _ | ⟨s, rng1⟩
  · simp [chooseList] at hcl
  · have hs : s ∈ [ScalarType.i32, ScalarType.u32, ScalarType.bool] :=
      chooseList_mem hcl
    simp only [Option.bind_eq_bind, Option.some_bind]
    rcases hgx : genRangeX 0 2 rng1 with _ | ⟨c, rng2⟩
    · simp [genRangeX] at hgx
    · simp only [Option.some_bind]
      rcases c with _ | c
      · refine ⟨.Scalar s, rng2, rfl, ?_⟩
        simpa [genable] using hs
      · rcases hgi : genRangeI 2 4 rng2 with _ | ⟨n, rng3⟩
        · simp [genRangeI] at hgi
        · have hn : n = 2 + (draw rng2).1 % 3 := by
            simp [genRangeI] at hgi; omega
          simp only [Option.some_bind]
          refine ⟨.Vector n s, rng3, rfl, ?_⟩
          have h3 : (draw rng2).1 % 3 < 3 := Nat.mod_lt _ (by omega)
          simp only [genable]
          refine ⟨by omega, by omega, ?_⟩
          simpa using hs

/-- The parameter loop always succeeds, produces exactly the requested
number of parameters, and every parameter type is generable. -/
theorem genInputs_total : ∀ (k i : Nat) (rng : Rng),
    ∃ inputs rng', genInputs i k rng = some (inputs, rng') ∧
      inputs.length = k ∧ ∀ p ∈ inputs, genable p.data_type := by
  intro k
  induction k with
  | zero => intro i rng; exact ⟨[], rng, rfl, rfl, by simp⟩
  | succ m ih =>
    intro i rng
    obtain ⟨ty, rngA, hty, hgen⟩ := gen_ty_total rng
    obtain ⟨rest, rngB, hrest, hlen, hall⟩ := ih (i + 1) rngA
    refine ⟨⟨"arg_" ++ natDecimal i, ty⟩ :: rest, rngB, ?_, by simp [hlen], ?_⟩
    · simp only [genInputs, Option.bind_eq_bind, hty, Option.some_bind, hrest]
    · intro p hp
      rcases List.mem_cons.mp hp with h | h
      · simpa [h] using hgen
      · exact hall p h

theorem getLast?_mem {α : Type} {l : List α} {x : α}
    (h : l.getLast? = some x) : x ∈ l := by
  obtain ⟨hne, hx⟩ := List.mem_getLast?_eq_getLast (show x ∈ l.getLast? from h)
  exact hx ▸ List.getLast_mem hne

/-- `forceReturn` leaves a block ending in a typed return, provided every
return already in the block is typed at the required type. -/
theorem forceReturn_last (reg : FnRegistry) (scope : Scope) (t : DataType)
    (stmts : List Statement) (rng : Rng)
    (hblk : ∀ stmt ∈ stmts, ∀ o, stmt = Statement.ret o →
      ∃ e, o = some e ∧ exprType e = t) :
    ∃ e, (forceReturn reg scope t stmts rng).1.getLast?
        = some (Statement.ret (some e)) ∧ exprType e = t := by
  unfold forceReturn
  by_cases hr : isRetStmt stmts.getLast? = true
  · rw [if_pos hr]
    rcases hl : stmts.getLast? with _ | stmt
    · rw [hl] at hr; simp [isRetStmt] at hr
    · cases stmt with
      | ret o =>
        obtain ⟨e, he, het⟩ :=
          hblk (Statement.ret o) (getLast?_mem hl) o rfl
        exact ⟨e, by rw [he], het⟩
      | letDecl n ty e => rw [hl] at hr; simp [isRetStmt] at hr
      | varDecl n ty e => rw [hl] at hr; simp [isRetStmt] at hr
      | assign n e => rw [hl] at hr; simp [isRetStmt] at hr
      | exprStmt e => rw [hl] at hr; simp [isRetStmt] at hr
  · rw [if_neg hr]
    exact ⟨(specGenExpr reg scope t rng).1, by simp,
      specGenExpr_type reg scope t rng⟩

/-- `forceReturn` appends exactly one terminal return — of an expression
synthesized at the required type against the given (final) scope — when the
block does not already end in a return, and leaves the block unchanged when
it does. -/
theorem forceReturn_append (reg : FnRegistry) (scope : Scope) (t : DataType)
    (stmts : List Statement) (rng : Rng) :
    (isRetStmt stmts.getLast? = true →
      forceReturn reg scope t stmts rng = (stmts, rng))
  ∧ (isRetStmt stmts.getLast? = false →
      (forceReturn reg scope t stmts rng).1
        = stmts ++ [Statement.ret (some (specGenExpr reg scope t rng).1)]
      ∧ exprType (specGenExpr reg scope t rng).1 = t) := by
  constructor
  · intro hr; unfold forceReturn; rw [if_pos hr]
  · intro hr
    unfold forceReturn
    rw [if_neg (by simp [hr])]
    exact ⟨rfl, specGenExpr_type reg scope t rng⟩

/-- Structural characterisation of one `FnRegistry::gen` call: it always
succeeds, appends exactly one signature and one declaration, increments the
counter once, names the function from the incremented counter, declares
output type `return_ty`, ends the body in a `return_ty`-typed return, and
draws 0-4 generable parameter types. -/
theorem gen_spec (reg : FnRegistry) (rng : Rng) (t : DataType) :
    ∃ sig reg' rng' decl,
      FnRegistry.gen reg rng t = some (sig, reg', rng') ∧
      reg'.sigs = reg.sigs ++ [sig] ∧
      reg'.impls = reg.impls ++ [decl] ∧
      reg'.count = (reg.count + 1) % 2 ^ 32 ∧
      sig.name = mkFnName ((reg.count + 1) % 2 ^ 32) ∧
      sig.params = decl.inputs.map FnInput.data_type ∧
      sig.ret = some t ∧
      decl.output = some t ∧
      (∃ e, decl.body.getLast? = some (Statement.ret (some e)) ∧
        exprType e = t) ∧
      decl.inputs.length ≤ 4 ∧
      (∀ p ∈ decl.inputs, genable p.data_type) ∧
      (∀ r rest, rng = r :: rest → decl.inputs.length = r % 5) := by
  unfold FnRegistry.gen
  rcases hga : genRangeX 0 5 rng with _ | ⟨ac, rngA⟩
  · simp [genRangeX] at hga
  · have hac : ac = (draw rng).1 % 5 ∧ rngA = (draw rng).2 := by
      simp [genRangeX] at hga; exact ⟨hga.1.symm, hga.2.symm⟩
    simp only [FnRegistry.next_fn, Option.bind_eq_bind, Option.some_bind]
    obtain ⟨inputs, rngB, hinp, hlen, hall⟩ := genInputs_total ac 0 rngA
    rw [hinp]
    simp only [Option.some_bind]
    rcases hgs : genRangeX 5 10 rngB with _ | ⟨sc, rngC⟩
    · simp [genRangeX] at hgs
    · simp only [Option.some_bind]
      rcases hblk : specGenBlock
          { reg with count := (reg.count + 1) % 2 ^ 32 } (some t)
          sc Scope.empty rngC with ⟨stmts0, scope, rngD⟩
      rcases hfr : forceReturn
          { reg with count := (reg.count + 1) % 2 ^ 32 } scope t
          stmts0 rngD with ⟨stmts, rngE⟩
      refine ⟨_, _, rngE,
        ⟨mkFnName ((reg.count + 1) % 2 ^ 32), inputs, some t, stmts⟩,
        rfl, rfl, rfl, rfl,
        rfl, rfl, rfl, rfl, ?_, ?_, hall, ?_⟩
      · have hret := forceReturn_last
          { reg with count := (reg.count + 1) % 2 ^ 32 }
          scope t stmts0 rngD (by
            intro stmt hmem o hr
            have := specGenBlock_ret_typed
              { reg with count := (reg.count + 1) % 2 ^ 32 }
              t sc Scope.empty rngC stmt (by rw [hblk]; exact hmem) o hr
            exact this)
        rw [hfr] at hret
        exact hret
      · show inputs.length ≤ 4
        have hmod : (draw rng).1 % 5 < 5 := Nat.mod_lt _ (by omega)
        have h1 := hac.1
        omega
      · intro r rest hr
        show inputs.length = r % 5
        rw [hlen, hac.1, hr]
        rfl

theorem digitChar_inj_lt : ∀ a < 10, ∀ b < 10,
    Nat.digitChar a = Nat.digitChar b → a = b := by decide

theorem map_digitChar_inj : ∀ (l₁ l₂ : List Nat),
    (∀ d ∈ l₁, d < 10) → (∀ d ∈ l₂, d < 10) →
    l₁.map Nat.digitChar = l₂.map Nat.digitChar → l₁ = l₂ := by
  intro l₁
  induction l₁ with
  | nil => intro l₂ _ _ h; cases l₂ <;> simp_all
  | cons a t ih =>
    intro l₂ h1 h2 h
    cases l₂ with
    | nil => simp at h
    | cons b u =>
      simp only [List.map_cons, List.cons.injEq] at h
      have ha : a = b := digitChar_inj_lt a (h1 a (by simp)) b (h2 b (by simp)) h.1
      have ht : t = u := ih u (fun d hd => h1 d (by simp [hd]))
        (fun d hd => h2 d (by simp [hd])) h.2
      rw [ha, ht]

theorem decDigitsF_lt : ∀ (fuel n : Nat), ∀ d ∈ decDigitsF fuel n, d < 10 := by
  intro fuel
  induction fuel with
  | zero => intro n d hd; cases n <;> simp [decDigitsF] at hd
  | succ f ih =>
    intro n d hd
    cases n with
    | zero => simp [decDigitsF] at hd
    | succ m =>
      simp only [decDigitsF, List.mem_cons] at hd
      rcases hd with h | h
      · omega
      · exact ih _ d h

/-- With sufficient fuel, `decDigitsF` is a section of `Nat.ofDigits 10`. -/
theorem decDigitsF_ofDigits : ∀ (fuel n : Nat), n ≤ fuel →
    Nat.ofDigits 10 (decDigitsF fuel n) = n := by
  intro fuel
  induction fuel with
  | zero => intro n hn; interval_cases n; simp [decDigitsF]
  | succ f ih =>
    intro n hn
    cases n with
    | zero => simp [decDigitsF]
    | succ m =>
      have hdiv : (m + 1) / 10 ≤ f := by omega
      simp only [decDigitsF, Nat.ofDigits_cons, ih _ hdiv]
      omega

/-- Decimal rendering is injective (on positives; the name counter is always
positive). -/
theorem natDecimal_inj {m n : Nat} (hm : 0 < m) (hn : 0 < n)
    (h : natDecimal m = natDecimal n) : m = n := by
  unfold natDecimal at h
  rw [if_neg (by omega), if_neg (by omega)] at h
  have hdata : (((decDigitsF m m).map Nat.digitChar).reverse)
      = (((decDigitsF n n).map Nat.digitChar).reverse) := by
    injection h
  have hmap : (decDigitsF m m).map Nat.digitChar
      = (decDigitsF n n).map Nat.digitChar :=
    List.reverse_injective hdata
  have hdig : decDigitsF m m = decDigitsF n n :=
    map_digitChar_inj _ _ (decDigitsF_lt m m) (decDigitsF_lt n n) hmap
  calc m = Nat.ofDigits 10 (decDigitsF m m) :=
        (decDigitsF_ofDigits m m le_rfl).symm
    _ = Nat.ofDigits 10 (decDigitsF n n) := by rw [hdig]
    _ = n := decDigitsF_ofDigits n n le_rfl

/-- Function names formatted from distinct (positive) counter values are
distinct. -/
theorem mkFnName_inj {m n : Nat} (hm : 0 < m) (hn : 0 < n) (hne : m ≠ n) :
    mkFnName m ≠ mkFnName n := by
  intro h
  apply hne
  apply natDecimal_inj hm hn
  have hdt : (mkFnName m).data = (mkFnName n).data := congrArg String.data h
  unfold mkFnName at hdt
  simp only [String.data_append] at hdt
  have hd : (natDecimal m).data = (natDecimal n).data :=
    List.append_cancel_left hdt
  cases hmk : natDecimal m with
  | mk dm =>
    cases hnk : natDecimal n with
    | mk dn =>
      rw [hmk, hnk] at hd
      simp only at hd
      rw [hd]

/-- C1: every function produced by `FnRegistry::gen` with requested return
type `t` declares output type `t`, and its body's final statement is a
return whose expression's type equals `t` under structural equality;
moreover, when a block's last statement is not already a return, exactly one
terminal return of an expression of type `t` synthesized against the scope's
final state is appended (`forceReturn`, scope.rs 86-90), and a block already
ending in a return is left unchanged. -/
theorem fnRegistry_gen_terminal_return (reg : FnRegistry) (rng : Rng)
    (t : DataType) :
    (∃ sig reg' rng' decl,
      FnRegistry.gen reg rng t = some (sig, reg', rng') ∧
      sig.ret = some t ∧
      reg'.impls = reg.impls ++ [decl] ∧
      decl.output = some t ∧
      ∃ e, decl.body.getLast? = some (Statement.ret (some e)) ∧
        exprType e = t)
  ∧ (∀ scope stmts rngX, isRetStmt stmts.getLast? = false →
      (forceReturn reg scope t stmts rngX).1
        = stmts ++ [Statement.ret (some (specGenExpr reg scope t rngX).1)]
      ∧ exprType (specGenExpr reg scope t rngX).1 = t)
  ∧ (∀ scope stmts rngX, isRetStmt stmts.getLast? = true →
      forceReturn reg scope t stmts rngX = (stmts, rngX)) := by
  refine ⟨?_, ?_, ?_⟩
  · obtain ⟨sig, reg', rng', decl, hgen, _, himpls, _, _, _, hret, hout,
      hlast, _, _, _⟩ := gen_spec reg rng t
    exact ⟨sig, reg', rng', decl, hgen, hret, himpls, hout, hlast⟩
  · intro scope stmts rngX hr
    exact (forceReturn_append reg scope t stmts rngX).2 hr
  · intro scope stmts rngX hr
    exact (forceReturn_append reg scope t stmts rngX).1 hr

/-- C1 witness: at a concrete registry, scope and rng, `forceReturn` on a
block not ending in a return appends exactly the synthesized terminal
return. -/
theorem fnRegistry_gen_terminal_return_witness :
    (forceReturn ⟨[], [], 0⟩ Scope.empty (.Scalar .i32) [] []).1
      = [Statement.ret (some
          (specGenExpr ⟨[], [], 0⟩ Scope.empty (.Scalar .i32) []).1)] :=
  ((fnRegistry_gen_terminal_return ⟨[], [], 0⟩ [] (.Scalar .i32)).2.1
    Scope.empty [] [] (by decide)).1

/-- C2: `FnRegistry::select` never returns a signature whose return type
differs structurally from the requested type; it yields `some` exactly when
`contains_type` holds; and it picks uniformly among the matching signatures
(the draw indexes the matching list, each index being hit by exactly one
residue). -/
theorem fnRegistry_select_spec (reg : FnRegistry) (rng : Rng) (t : DataType) :
    (∀ sig rng', reg.select rng t = some (sig, rng') → sig.ret = some t)
  ∧ ((reg.select rng t).isSome = true ↔ reg.contains_type t = true)
  ∧ (∀ (r : Nat) (rest : List Nat), r < (reg.matching t).length →
      reg.select (r :: rest) t
        = some ((reg.matching t).getD r default, rest)) := by
  refine ⟨?_, ?_, ?_⟩
  · intro sig rng' h
    have hm : sig ∈ reg.matching t := chooseList_mem h
    have := (List.mem_filter.mp hm).2
    exact of_decide_eq_true this
  · rw [FnRegistry.select, chooseList_isSome_iff]
    unfold FnRegistry.matching FnRegistry.contains_type
    constructor
    · intro hne
      rcases hf : reg.sigs.filter (fun sig => decide (sig.ret = some t))
        with _ | ⟨a, l⟩
      · exact absurd hf hne
      · have ha : a ∈ reg.sigs.filter (fun sig => decide (sig.ret = some t)) :=
          hf ▸ List.mem_cons_self a l
        have := List.mem_filter.mp ha
        exact List.any_eq_true.mpr ⟨a, this.1, this.2⟩
    · intro hany hf
      obtain ⟨a, hmem, hp⟩ := List.any_eq_true.mp hany
      have : a ∈ reg.sigs.filter (fun sig => decide (sig.ret = some t)) :=
        List.mem_filter.mpr ⟨hmem, hp⟩
      rw [hf] at this
      exact absurd this (List.not_mem_nil a)
  · intro r rest hr
    unfold FnRegistry.select
    rcases hm : reg.matching t with _ | ⟨a, l⟩
    · rw [hm] at hr; simp at hr
    · rw [hm] at hr
      rw [chooseList_at, Nat.mod_eq_of_lt hr]
      rw [List.getD_eq_getElem _ _ hr, List.getD_eq_getElem _ _ hr]

/-- C2 witness: a concrete one-signature registry. -/
theorem fnRegistry_select_spec_witness :
    FnRegistry.select ⟨[⟨"f", [], some (.Scalar .i32)⟩], [], 0⟩ [0]
        (.Scalar .i32)
      = some (⟨"f", [], some (.Scalar .i32)⟩, []) := by
  have := (fnRegistry_select_spec ⟨[⟨"f", [], some (.Scalar .i32)⟩], [], 0⟩
    [0] (.Scalar .i32)).2.2 0 [] (by decide)
  simpa using this

/-- C3: generation is deterministic — the generation pass threads the seeded
rng and registry by exclusive access and has no other state, so identical
inputs (including identical rng state) give identical outputs in two
independent runs of `gen_struct_decl` and `FnRegistry::gen`. -/
theorem generation_deterministic :
    (∀ (rng₁ rng₂ : Rng) (reg₁ reg₂ : FnRegistry) (t₁ t₂ : DataType),
      rng₁ = rng₂ → reg₁ = reg₂ → t₁ = t₂ →
      FnRegistry.gen reg₁ rng₁ t₁ = FnRegistry.gen reg₂ rng₂ t₂)
  ∧ (∀ (rng₁ rng₂ : Rng) (tr₁ tr₂ : TypeRegistry) (o₁ o₂ : Options)
      (n₁ n₂ : String),
      rng₁ = rng₂ → tr₁ = tr₂ → o₁ = o₂ → n₁ = n₂ →
      gen_struct_decl rng₁ tr₁ o₁ n₁ = gen_struct_decl rng₂ tr₂ o₂ n₂) := by
  constructor
  · intro rng₁ rng₂ reg₁ reg₂ t₁ t₂ h1 h2 h3
    rw [h1, h2, h3]
  · intro rng₁ rng₂ tr₁ tr₂ o₁ o₂ n₁ n₂ h1 h2 h3 h4
    rw [h1, h2, h3, h4]

/-- C3 witness: two runs from the same concrete seed and configuration
agree. -/
theorem generation_deterministic_witness :
    FnRegistry.gen ⟨[], [], 0⟩ [1, 2, 3] (.Scalar .u32)
      = FnRegistry.gen ⟨[], [], 0⟩ [1, 2, 3] (.Scalar .u32) :=
  generation_deterministic.1 [1, 2, 3] [1, 2, 3] ⟨[], [], 0⟩ ⟨[], [], 0⟩
    (.Scalar .u32) (.Scalar .u32) rfl rfl rfl

/-- C6: `Scope::choose_var` fails exactly on a scope with no mutable
bindings; under `has_vars` it always succeeds and returns a binding sampled
from the mutable sequence only (never an immutable `let` binding). -/
theorem scope_choose_var_spec (s : Scope) (rng : Rng) :
    (s.has_vars = false → s.choose_var rng = none)
  ∧ (s.has_vars = true →
      (s.choose_var rng).isSome = true
      ∧ ∀ b rng', s.choose_var rng = some (b, rng') → b ∈ s.vars) := by
  constructor
  · intro h
    have hnil : s.vars = [] := by
      rcases hv : s.vars with _ | ⟨a, l⟩
      · rfl
      · rw [Scope.has_vars, hv] at h; simp at h
    rw [Scope.choose_var, hnil]
    rfl
  · intro h
    have hne : s.vars ≠ [] := by
      intro hv
      rw [Scope.has_vars, hv] at h; simp at h
    constructor
    · rw [Scope.choose_var, chooseList_isSome_iff]; exact hne
    · intro b rng' hb
      exact chooseList_mem hb

/-- C6 witness: a scope with one mutable and one immutable binding yields a
mutable binding. -/
theorem scope_choose_var_spec_witness :
    (Scope.choose_var ⟨0, [("c", .Scalar .bool)], [("v", .Scalar .i32)]⟩
      [0]).isSome = true :=
  ((scope_choose_var_spec ⟨0, [("c", .Scalar .bool)], [("v", .Scalar .i32)]⟩
    [0]).2 (by decide)).1

/-- C7: scope insertions are strictly monotonic appends — each of
`insert_let` / `insert_var` appends exactly one binding to its own sequence,
leaves the other sequence and all previously appended bindings (names,
types, positions) unchanged, and increases the total binding count by
exactly one; `iter_vars` yields the immutable bindings first and then the
mutable ones, each in insertion order. -/
theorem scope_insert_spec (s : Scope) (n : String) (t : DataType) :
    ((s.insert_let n t).consts = s.consts ++ [(n, t)]
      ∧ (s.insert_let n t).vars = s.vars)
  ∧ ((s.insert_var n t).vars = s.vars ++ [(n, t)]
      ∧ (s.insert_var n t).consts = s.consts)
  ∧ (s.insert_let n t).iter_vars.length = s.iter_vars.length + 1
  ∧ (s.insert_var n t).iter_vars.length = s.iter_vars.length + 1
  ∧ s.iter_vars = s.consts ++ s.vars := by
  refine ⟨⟨rfl, rfl⟩, ⟨rfl, rfl⟩, ?_, ?_, rfl⟩
  · simp [Scope.iter_vars, Scope.insert_let]; omega
  · simp [Scope.iter_vars, Scope.insert_var]; omega

/-- C10 (implicit): `gen_struct_decl` panics whenever the configured
inclusive sampling range is empty (`min_struct_members >
max_struct_members`), even when both bounds are within the alphabet
capacity. -/
theorem gen_struct_decl_empty_range (rng : Rng) (ty_reg : TypeRegistry)
    (options : Options) (name : String)
    (h : options.max_struct_members < options.min_struct_members) :
    gen_struct_decl rng ty_reg options name = none := by
  have hn : ¬ options.min_struct_members ≤ options.max_struct_members := by
    omega
  simp [gen_struct_decl, genRangeI, hn]

/-- C10 witness: bounds 3 > 2, both within the alphabet capacity. -/
theorem gen_struct_decl_empty_range_witness :
    gen_struct_decl [] ⟨[]⟩ ⟨[], 3, 2⟩ "S" = none :=
  gen_struct_decl_empty_range [] ⟨[]⟩ ⟨[], 3, 2⟩ "S" (by decide)

/-- A type sampled from a non-empty catalog is one of its registered
types. -/
theorem TypeRegistry.select_mem (tr : TypeRegistry) (rng : Rng)
    (h : tr.types ≠ []) : (tr.select rng).1 ∈ tr.types := by
  unfold TypeRegistry.select
  rcases hd : draw rng with ⟨r, rngA⟩
  have hpos : 0 < tr.types.length := by
    cases htr : tr.types with
    | nil => exact absurd htr h
    | cons a l => simp [htr]
  have hlt : r % tr.types.length < tr.types.length := Nat.mod_lt _ hpos
  show tr.types.getD (r % tr.types.length) (DataType.Scalar .i32) ∈ tr.types
  rw [List.getD_eq_getElem _ _ hlt]
  exact List.getElem_mem hlt

/-- The member loop succeeds exactly while the alphabet suffices: with
`i + k ≤ 10` it yields `k` members named by `FIELD_NAMES[i..i+k)` whose
types come from the (non-empty) catalog. -/
theorem genMembers_spec (ty_reg : TypeRegistry) :
    ∀ (k i : Nat) (rng : Rng), i + k ≤ FIELD_NAMES.length →
      ∃ ms rng', genMembers ty_reg i k rng = some (ms, rng') ∧
        ms.length = k ∧
        ms.map StructMember.name = (FIELD_NAMES.drop i).take k ∧
        (ty_reg.types ≠ [] → ∀ m ∈ ms, m.data_type ∈ ty_reg.types) := by
  intro k
  induction k with
  | zero =>
    intro i rng _
    exact ⟨[], rng, rfl, rfl, by simp, by intro _ m hm; simp at hm⟩
  | succ j ih =>
    intro i rng hik
    have hi : i < FIELD_NAMES.length := by
      simp only [FIELD_NAMES, List.length_cons] at hik ⊢
      omega
    obtain ⟨ms, rng', hms, hlen, hnames, htypes⟩ :=
      ih (i + 1) (ty_reg.select rng).2 (by omega)
    refine ⟨⟨FIELD_NAMES.get ⟨i, hi⟩, (ty_reg.select rng).1⟩ :: ms, rng',
      ?_, by simp [hlen], ?_, ?_⟩
    · simp only [genMembers, Option.bind_eq_bind]
      rw [List.get?_eq_getElem?, List.getElem?_eq_getElem hi]
      simp only [Option.some_bind, hms, List.get_eq_getElem]
    · simp only [List.map_cons, hnames, List.get_eq_getElem]
      rw [List.drop_eq_getElem_cons hi, List.take_succ_cons]
    · intro hne m hm
      rcases List.mem_cons.mp hm with h | h
      · rw [h]
        exact TypeRegistry.select_mem ty_reg rng hne
      · exact htypes hne m h

/-- The member loop fails (alphabet overflow) as soon as the requested
count reaches past the ten names. -/
theorem genMembers_overflow (ty_reg : TypeRegistry) :
    ∀ (k i : Nat) (rng : Rng), FIELD_NAMES.length < i + k → 1 ≤ k →
      genMembers ty_reg i k rng = none := by
  intro k
  induction k with
  | zero => intro i rng _ h1; omega
  | succ j ih =>
    intro i rng hik _
    by_cases hi : i < FIELD_NAMES.length
    · have hj : 1 ≤ j := by
        simp only [FIELD_NAMES, List.length_cons] at hik hi
        omega
      simp only [genMembers, Option.bind_eq_bind]
      rw [List.get?_eq_getElem?, List.getElem?_eq_getElem hi]
      simp only [Option.some_bind]
      rw [ih (i + 1) (ty_reg.select rng).2 (by omega) hj]
      rfl
    · simp only [genMembers, Option.bind_eq_bind]
      rw [List.get?_eq_getElem?, List.getElem?_eq_none_iff.mpr (by omega)]
      rfl

/-- C4: with `min_struct_members = max_struct_members = k` and `k` within
the ten-symbol alphabet, `gen_struct_decl` returns a declaration with
exactly `k` members named by the first `k` alphabet symbols in fixed order
(hence pairwise distinct), each member type drawn from the (non-empty) type
catalog; for `k` beyond the alphabet (e.g. `k = 11`) it fails fast
(`none`) rather than silently wrapping or reusing names. -/
theorem gen_struct_decl_members (rng : Rng) (ty_reg : TypeRegistry)
    (options : Options) (name : String) (k : Nat)
    (hmin : options.min_struct_members = k)
    (hmax : options.max_struct_members = k) :
    (k ≤ 10 →
      ∃ members rng',
        gen_struct_decl rng ty_reg options name
          = some (⟨name, members⟩, rng') ∧
        members.length = k ∧
        members.map StructMember.name = FIELD_NAMES.take k ∧
        (members.map StructMember.name).Nodup ∧
        (ty_reg.types ≠ [] → ∀ m ∈ members, m.data_type ∈ ty_reg.types))
  ∧ (10 < k → gen_struct_decl rng ty_reg options name = none) := by
  have hcnt : genRangeI options.min_struct_members options.max_struct_members
      rng = some (k, (draw rng).2) := by
    rw [hmin, hmax, genRangeI, if_pos le_rfl]
    simp [Nat.mod_one]
  constructor
  · intro hk
    obtain ⟨ms, rng', hms, hlen, hnames, htypes⟩ :=
      genMembers_spec ty_reg k 0 (draw rng).2 (by simp [FIELD_NAMES]; omega)
    refine ⟨ms, rng', ?_, hlen, by simpa using hnames, ?_, htypes⟩
    · simp only [gen_struct_decl, Option.bind_eq_bind, hcnt, Option.some_bind,
        hms]
    · have : (FIELD_NAMES.take k).Nodup :=
        (List.take_sublist k FIELD_NAMES).nodup (by decide)
      rw [show ms.map StructMember.name = FIELD_NAMES.take k by
        simpa using hnames]
      exact this
  · intro hk
    have hnone : genMembers ty_reg 0 k (draw rng).2 = none :=
      genMembers_overflow ty_reg k 0 (draw rng).2
        (by simp [FIELD_NAMES]; omega) (by omega)
    simp only [gen_struct_decl, Option.bind_eq_bind, hcnt, Option.some_bind,
      hnone, Option.none_bind]

/-- C4 witness: the configured range `[2,2]` over a one-type catalog yields
the two members `a`, `b`; the range `[11,11]` fails fast. -/
theorem gen_struct_decl_members_witness :
    (gen_struct_decl [] ⟨[DataType.Scalar .bool]⟩ ⟨[], 2, 2⟩ "S").isSome
      = true
  ∧ gen_struct_decl [] ⟨[DataType.Scalar .bool]⟩ ⟨[], 11, 11⟩ "S" = none := by
  constructor
  · obtain ⟨ms, rng', heq, _⟩ :=
      (gen_struct_decl_members [] ⟨[DataType.Scalar .bool]⟩ ⟨[], 2, 2⟩ "S" 2
        rfl rfl).1 (by decide)
    rw [heq]; rfl
  · exact (gen_struct_decl_members [] ⟨[DataType.Scalar .bool]⟩ ⟨[], 11, 11⟩
      "S" 11 rfl rfl).2 (by decide)

/-- C9: each `FnRegistry::gen` call samples the parameter count uniformly
from 0 through 4 inclusive (the `0..5` draw, each residue hit by exactly one
value), and every parameter's type comes from the restricted generable-type
distribution — a scalar or arity-2-4 vector over the boolean / signed /
unsigned kinds, never an aggregate type. -/
theorem fnRegistry_gen_params (reg : FnRegistry) (t : DataType) :
    (∀ rng sig reg' rng',
      FnRegistry.gen reg rng t = some (sig, reg', rng') →
      sig.params.length ≤ 4 ∧ ∀ p ∈ sig.params, genable p)
  ∧ (∀ (r : Nat) (rest : List Nat) sig reg' rng',
      FnRegistry.gen reg (r :: rest) t = some (sig, reg', rng') →
      sig.params.length = r % 5) := by
  constructor
  · intro rng sig reg' rng' h
    obtain ⟨sig2, reg2, rng2, decl, hgen, _, _, _, _, hparams, _, _, _, hlen,
      hall, _⟩ := gen_spec reg rng t
    rw [h] at hgen
    obtain ⟨rfl, rfl, rfl⟩ :
        sig = sig2 ∧ reg' = reg2 ∧ rng' = rng2 := by
      have := Option.some.inj hgen
      exact ⟨congrArg Prod.fst this,
        congrArg Prod.fst (congrArg Prod.snd this),
        congrArg Prod.snd (congrArg Prod.snd this)⟩
    constructor
    · rw [hparams, List.length_map]
      exact hlen
    · intro p hp
      rw [hparams] at hp
      obtain ⟨inp, hinp, hpe⟩ := List.mem_map.mp hp
      exact hpe ▸ hall inp hinp
  · intro r rest sig reg' rng' h
    obtain ⟨sig2, reg2, rng2, decl, hgen, _, _, _, _, hparams, _, _, _, _, _,
      hcnt⟩ := gen_spec reg (r :: rest) t
    rw [h] at hgen
    obtain ⟨rfl, rfl, rfl⟩ :
        sig = sig2 ∧ reg' = reg2 ∧ rng' = rng2 := by
      have := Option.some.inj hgen
      exact ⟨congrArg Prod.fst this,
        congrArg Prod.fst (congrArg Prod.snd this),
        congrArg Prod.snd (congrArg Prod.snd this)⟩
    rw [hparams, List.length_map]
    exact hcnt r rest rfl

/-- C9 witness: a concrete run whose first draw is 2 produces exactly
2 % 5 = 2 parameters. -/
theorem fnRegistry_gen_params_witness :
    (FnRegistry.gen ⟨[], [], 0⟩ [2] (.Scalar .i32)).map
      (fun r => r.1.params.length) = some (2 % 5) := by
  rcases hg : FnRegistry.gen ⟨[], [], 0⟩ [2] (.Scalar .i32)
    with _ | ⟨sig, reg', rng'⟩
  · obtain ⟨sig2, reg2, rng2, decl, hgen, _⟩ :=
      gen_spec ⟨[], [], 0⟩ [2] (.Scalar .i32)
    rw [hg] at hgen
    exact absurd hgen (by simp)
  · have h2 := (fnRegistry_gen_params ⟨[], [], 0⟩ (.Scalar .i32)).2 2 [] sig
      reg' rng' hg
    simp [h2]

/-- C8 counterexample: at the wrap boundary the claim as stated is false.
A registry whose counter has reached `u32::MAX` (i.e. after `2 ^ 32 - 1`
syntheses) does not have its `len` increased by one by the next `gen` —
the wrapping `u32` increment takes it back to 0 and names the new function
`func_0` — and the old `len + 1` differs from the new `len`; moreover, the
fresh names repeat after the wrap: the name allocated two syntheses past
`u32::MAX` equals the very first allocated name `func_1`. -/
theorem fnRegistry_len_spec_counterexample :
    (FnRegistry.next_fn ⟨[], [], 2 ^ 32 - 1⟩).2.len = 0
    ∧ (⟨[], [], 2 ^ 32 - 1⟩ : FnRegistry).len + 1 ≠ 0
    ∧ (FnRegistry.next_fn (FnRegistry.next_fn ⟨[], [], 2 ^ 32 - 1⟩).2).1
        = (FnRegistry.next_fn ⟨[], [], 0⟩).1 := by
  refine ⟨?_, by decide, ?_⟩
  · show (2 ^ 32 - 1 + 1) % 2 ^ 32 = 0
    decide
  · show mkFnName (((2 ^ 32 - 1 + 1) % 2 ^ 32 + 1) % 2 ^ 32)
        = mkFnName ((0 + 1) % 2 ^ 32)
    decide

/-- C8 (amended for the `u32` wrap): `FnRegistry::len` counts only
synthesized functions — it is 0 immediately after `new` for any options,
and each `gen` updates it by the wrapping `u32` increment (and grows the
body store by exactly one), so it increases by exactly one whenever the
count stays below `u32::MAX`; the allocated names come from that counter
and are pairwise distinct across distinct positive counter values, hence
collision-free as long as fewer than `2 ^ 32` functions are synthesized. -/
theorem fnRegistry_len_spec :
    (∀ options : Options, (FnRegistry.new options).len = 0)
  ∧ (∀ (reg : FnRegistry) (rng : Rng) (t : DataType) sig reg' rng',
      FnRegistry.gen reg rng t = some (sig, reg', rng') →
      reg'.len = (reg.len + 1) % 2 ^ 32
      ∧ (reg.len + 1 < 2 ^ 32 → reg'.len = reg.len + 1)
      ∧ reg'.impls.length = reg.impls.length + 1
      ∧ sig.name = mkFnName ((reg.count + 1) % 2 ^ 32))
  ∧ (∀ m n : Nat, 0 < m → 0 < n → m ≠ n → mkFnName m ≠ mkFnName n) := by
  refine ⟨fun _ => rfl, ?_, fun m n hm hn hne => mkFnName_inj hm hn hne⟩
  intro reg rng t sig reg' rng' h
  obtain ⟨sig2, reg2, rng2, decl, hgen, _, himpls, hcount, hname, _⟩ :=
    gen_spec reg rng t
  rw [h] at hgen
  obtain ⟨rfl, rfl, rfl⟩ :
      sig = sig2 ∧ reg' = reg2 ∧ rng' = rng2 := by
    have := Option.some.inj hgen
    exact ⟨congrArg Prod.fst this,
      congrArg Prod.fst (congrArg Prod.snd this),
      congrArg Prod.snd (congrArg Prod.snd this)⟩
  refine ⟨hcount, ?_, by rw [himpls]; simp, hname⟩
  intro hlt
  show reg'.count = reg.len + 1
  rw [hcount]
  exact Nat.mod_eq_of_lt hlt

/-- C8 witness: a fresh registry counts zero synthesized functions, a
concrete `gen` call below the wrap takes `len` from 0 to 1, and distinct
counter values 1 and 2 give distinct function names. -/
theorem fnRegistry_len_spec_witness :
    (FnRegistry.new ⟨[], 0, 0⟩).len = 0
    ∧ (FnRegistry.gen ⟨[], [], 0⟩ [] (.Scalar .i32)).map
        (fun r => r.2.1.len) = some 1
    ∧ mkFnName 1 ≠ mkFnName 2 := by
  refine ⟨fnRegistry_len_spec.1 ⟨[], 0, 0⟩, ?_,
    fnRegistry_len_spec.2.2 1 2 (by decide) (by decide) (by decide)⟩
  rcases hg : FnRegistry.gen ⟨[], [], 0⟩ [] (.Scalar .i32)
    with _ | ⟨sig, reg', rng'⟩
  · obtain ⟨sig2, reg2, rng2, decl, hgen, _⟩ :=
      gen_spec ⟨[], [], 0⟩ [] (.Scalar .i32)
    rw [hg] at hgen
    exact absurd hgen (by simp)
  · have h2 := ((fnRegistry_len_spec.2.1 ⟨[], [], 0⟩ [] (.Scalar .i32) sig
      reg' rng' hg).2.1 (by decide))
    simp [h2]
    rfl

/-- The optional built-ins of `gen_builtin_fns`: each is emitted only under
an `enabled_fns` membership test. -/
def optionalBuiltins : List String :=
  ["countLeadingZeros", "countOneBits", "countTrailingZeros",
   "firstBitHigh", "firstBitLow", "reverseBits", "extractBits",
   "insertBits", "dot"]

/-- Every built-in signature's name is either one of the unconditionally
generated (mandatory) names or a member of the configuration's enabled
set. -/
theorem gen_builtin_fns_name_mem (options : Options) :
    ∀ sig ∈ gen_builtin_fns options,
      sig.name ∈ ["all", "any", "select", "clamp", "abs", "max", "min"]
      ∨ sig.name ∈ options.enabled_fns := by
  intro sig h
  simp only [gen_builtin_fns, vectors_of, scalar_and_vectors_of,
    List.map_cons, List.map_nil, List.flatMap_cons, List.flatMap_nil,
    List.append_nil, List.mem_append, List.mem_cons, List.not_mem_nil,
    or_false, mem_optSigs, List.mem_singleton] at h
  repeat' (rcases h with h | h)
  all_goals try (obtain ⟨hc, rfl⟩ := h
                 exact Or.inr (List.mem_of_elem_eq_true hc))
  all_goals try (obtain ⟨hc, hd⟩ := h
                 rcases hd with rfl | rfl | rfl <;>
                   exact Or.inr (List.mem_of_elem_eq_true hc))
  all_goals (left; decide)

/-- C5: the registry built by `FnRegistry::new` contains an optional
built-in's name only if that name is in the configuration's enabled set
(disabling one guarantees zero occurrences in the signature list), while
the mandatory built-ins — boolean reductions `all`/`any`, `clamp`, pairwise
`max`/`min`, and typed `select` — are present for every applicable
scalar/vector shape regardless of configuration. -/
theorem fnRegistry_new_builtins (options : Options) :
    (∀ o ∈ optionalBuiltins, o ∉ options.enabled_fns →
      ∀ sig ∈ (FnRegistry.new options).sigs, sig.name ≠ o)
  ∧ (∀ ty ∈ vectors_of .bool,
      (⟨"all", [ty], some (.Scalar .bool)⟩ : FnSig)
        ∈ (FnRegistry.new options).sigs
      ∧ (⟨"any", [ty], some (.Scalar .bool)⟩ : FnSig)
        ∈ (FnRegistry.new options).sigs)
  ∧ (∀ s_ty ∈ [ScalarType.bool, ScalarType.i32, ScalarType.u32],
      ∀ ty ∈ scalar_and_vectors_of s_ty,
      (⟨"select", [ty, ty, .Scalar .bool], some ty⟩ : FnSig)
        ∈ (FnRegistry.new options).sigs)
  ∧ (∀ s_ty ∈ [ScalarType.i32, ScalarType.u32],
      ∀ ty ∈ scalar_and_vectors_of s_ty,
      (⟨"clamp", [ty, ty, ty], some ty⟩ : FnSig)
        ∈ (FnRegistry.new options).sigs
      ∧ (⟨"max", [ty, ty], some ty⟩ : FnSig)
        ∈ (FnRegistry.new options).sigs
      ∧ (⟨"min", [ty, ty], some ty⟩ : FnSig)
        ∈ (FnRegistry.new options).sigs) := by
  refine ⟨?_, ?_, ?_, ?_⟩
  · intro o ho hno sig hsig heq
    rcases gen_builtin_fns_name_mem options sig hsig with hm | he
    · rw [heq] at hm
      fin_cases ho <;> simp at hm
    · rw [heq] at he
      exact hno he
  · intro ty hty
    constructor <;>
    · show _ ∈ gen_builtin_fns options
      unfold gen_builtin_fns
      apply List.mem_append_left
      apply List.mem_append_left
      apply List.mem_flatMap.mpr
      exact ⟨ty, hty, by simp⟩
  · intro s_ty hs ty hty
    show _ ∈ gen_builtin_fns options
    unfold gen_builtin_fns
    apply List.mem_append_left
    apply List.mem_append_right
    apply List.mem_flatMap.mpr
    exact ⟨s_ty, hs, List.mem_append_left _ (List.mem_map.mpr ⟨ty, hty, rfl⟩)⟩
  · intro s_ty hs ty hty
    refine ⟨?_, ?_, ?_⟩ <;>
      show _ ∈ gen_builtin_fns options
    · unfold gen_builtin_fns
      apply List.mem_append_right
      apply List.mem_flatMap.mpr
      refine ⟨s_ty, hs, List.mem_append_left _ (List.mem_flatMap.mpr
        ⟨ty, hty, ?_⟩)⟩
      apply List.mem_append_left
      apply List.mem_append_left
      apply List.mem_append_left
      apply List.mem_append_left
      simp
    · unfold gen_builtin_fns
      apply List.mem_append_right
      apply List.mem_flatMap.mpr
      refine ⟨s_ty, hs, List.mem_append_left _ (List.mem_flatMap.mpr
        ⟨ty, hty, ?_⟩)⟩
      apply List.mem_append_right
      simp
    · unfold gen_builtin_fns
      apply List.mem_append_right
      apply List.mem_flatMap.mpr
      refine ⟨s_ty, hs, List.mem_append_left _ (List.mem_flatMap.mpr
        ⟨ty, hty, ?_⟩)⟩
      apply List.mem_append_right
      simp

/-- C5 witness: with every optional built-in disabled (empty enabled set),
the mandatory `clamp` signature is present and its name is not `dot`. -/
theorem fnRegistry_new_builtins_witness :
    (⟨"clamp", [.Scalar .i32, .Scalar .i32, .Scalar .i32],
      some (.Scalar .i32)⟩ : FnSig) ∈ (FnRegistry.new ⟨[], 0, 0⟩).sigs
    ∧ (⟨"clamp", [.Scalar .i32, .Scalar .i32, .Scalar .i32],
      some (.Scalar .i32)⟩ : FnSig).name ≠ "dot" := by
  have hmem := ((fnRegistry_new_builtins ⟨[], 0, 0⟩).2.2.2 ScalarType.i32
    (by decide) (.Scalar .i32) (by decide)).1
  exact ⟨hmem, (fnRegistry_new_builtins ⟨[], 0, 0⟩).1 "dot" (by decide)
    (by decide) _ hmem⟩
